import Mathlib

/-
Verification development for the comp3001 teaching repository.

Two source files are embedded:

* `array_addition.cpp` — scalar, SSE (4-wide) and AVX (8-wide) elementwise
  addition of float arrays `X1`, `X2` into `Y1`, plus the initializer.  The
  element type `float` is modelled as the exact rationals `ℚ`: every claim
  about this file concerns the elementwise structure of the loops (which slot
  is written, from which operands), which is independent of the rounding of
  any one addition, since each strategy performs exactly one addition of the
  same two operands per slot.

* `1d_grid_1d_block.cu` — CUDA vector addition over `int` buffers (modelled
  as `List Int`): the bounds-guarded kernel, the ceiling-division grid
  computation, the host-side allocate/copy/launch/copy-back sequence with its
  cleanup-on-failure branches, and the integer comparator.

Array-writing loops are embedded as folds of `List.set` over the index
ranges the source loops traverse; reads `x[j]` become `x.getD j 0`.

The array length `M` of `array_addition.cpp` is defined in a header that is
not part of the repository, so it is kept as an explicit parameter.
-/

namespace ArrayAddition

/-- A loop `for (t = j; t != j + n; t++) y[t] = f(t);` as a fold of
`List.set` over `List.range' j n`. -/
def setRange {α : Type} (j n : Nat) (f : Nat → α) (y : List α) : List α :=
  (List.range' j n).foldl (fun acc t => acc.set t (f t)) y

/-- The packed part of a SIMD loop: `k` steps, step `i` storing the `w`
contiguous slots `w*i, ..., w*i + w - 1` at once. -/
def vecLoop {α : Type} (w k : Nat) (f : Nat → α) (y : List α) : List α :=
  (List.range k).foldl (fun acc i => setRange (w * i) w f acc) y

/-- The value stored into slot `j` by every strategy: `X1[j] + X2[j]`. -/
def addAt (x1 x2 : List ℚ) (j : Nat) : ℚ := x1.getD j 0 + x2.getD j 0

/-- `Add_default` of `array_addition.cpp`:
`for (int j = 0; j < M; j++) Y1[j] = X1[j] + X2[j];`. -/
def Add_default (M : Nat) (x1 x2 y1 : List ℚ) : List ℚ :=
  setRange 0 M (addAt x1 x2) y1

/-- Modelled from the spec: the body of `Add_SSE` in `array_addition.cpp` is
an empty student stub (`//write your code here`), so the 4-wide strategy is
taken from the spec contract — process 4 contiguous elements per packed step
(`M / 4` packed steps) and handle the `M mod 4` trailing elements with a
scalar remainder loop. -/
def Add_SSE (M : Nat) (x1 x2 y1 : List ℚ) : List ℚ :=
  setRange (4 * (M / 4)) (M - 4 * (M / 4)) (addAt x1 x2)
    (vecLoop 4 (M / 4) (addAt x1 x2) y1)

/-- Modelled from the spec: the body of `Add_AVX` in `array_addition.cpp` is
an empty student stub (`//write your code here`), so the 8-wide strategy is
taken from the spec contract — process 8 contiguous elements per packed step
(`M / 8` packed steps) and handle the `M mod 8` trailing elements with a
scalar remainder loop. -/
def Add_AVX (M : Nat) (x1 x2 y1 : List ℚ) : List ℚ :=
  setRange (8 * (M / 8)) (M - 8 * (M / 8)) (addAt x1 x2)
    (vecLoop 8 (M / 8) (addAt x1 x2) y1)

/-- The four global float arrays of `array_addition.cpp`. -/
structure Buffers where
  X1 : List ℚ
  X2 : List ℚ
  Y1 : List ℚ
  test2 : List ℚ

/-- `initialization_Add` of `array_addition.cpp`: one loop over
`j = 0, ..., M-1` setting `Y1[j] = 0`, `test2[j] = 0`, `X1[j] = (j % 7) + r`,
`X2[j] = (j % 13) + e` with `r = 0.11`, `e = 0.1234`, starting from
zero-initialised global arrays of length `M`. -/
def initialization_Add (M : Nat) : Buffers where
  X1 := setRange 0 M (fun j => ((j % 7 : Nat) : ℚ) + 0.11) (List.replicate M 0)
  X2 := setRange 0 M (fun j => ((j % 13 : Nat) : ℚ) + 0.1234) (List.replicate M 0)
  Y1 := setRange 0 M (fun _ => 0) (List.replicate M 0)
  test2 := setRange 0 M (fun _ => 0) (List.replicate M 0)

end ArrayAddition

namespace GPU

/-- `#define VECTOR_LENGTH 1000000` of `1d_grid_1d_block.cu`. -/
def VECTOR_LENGTH : Nat := 1000000

/-- `#define MAX_NUMBER_OF_BLOCKS 65535` of `1d_grid_1d_block.cu`. -/
def MAX_NUMBER_OF_BLOCKS : Nat := 65535

/-- `#define MAX_NUMBER_OF_THREADS 1024` of `1d_grid_1d_block.cu`. -/
def MAX_NUMBER_OF_THREADS : Nat := 1024

/-- Body of the kernel `addWithThreadsAndBlocks` for one thread with global
index `index = threadIdx.x + blockIdx.x * blockDim.x`:
`if (index < VECTOR_LENGTH) c[index] = a[index] + b[index];`. -/
def workerStep (a b c : List Int) (index : Nat) : List Int :=
  if index < VECTOR_LENGTH then c.set index (a.getD index 0 + b.getD index 0)
  else c

/-- One launch of `addWithThreadsAndBlocks` over a 1D grid of `blocks`
1D blocks of `threads` threads each: every thread `(bi, ti)` runs the kernel
body at its global index `ti + bi * threads` (`blockDim.x = threads`).
The threads write pairwise distinct slots, so the fold order is immaterial. -/
def runKernel (a b c : List Int) (blocks threads : Nat) : List Int :=
  (List.range blocks).foldl
    (fun acc bi =>
      (List.range threads).foldl
        (fun acc2 ti => workerStep a b acc2 (ti + bi * threads)) acc)
    c

/-- The grid-size formula of `main`, over C `int` values with C truncating
division: `(L + T - 1) / T`. -/
def numberOfBlocks (L T : Int) : Int := (L + T - 1).tdiv T

/-- `int number_of_blocks = (VECTOR_LENGTH + MAX_NUMBER_OF_THREADS - 1) /
MAX_NUMBER_OF_THREADS;` — the concrete grid size used by `main`. -/
def number_of_blocks : Nat :=
  (VECTOR_LENGTH + MAX_NUMBER_OF_THREADS - 1) / MAX_NUMBER_OF_THREADS

/-- The loop of `compare`, starting at index `i` with `fuel` iterations left:
`for (; i < VECTOR_LENGTH; i++) if ((a[i] + b[i]) != c[i]) return -1;` and
`return 0` when the loop finishes. -/
def compareLoop (a b c : List Int) : Nat → Nat → Int
  | _, 0 => 0
  | i, fuel + 1 =>
    if a.getD i 0 + b.getD i 0 ≠ c.getD i 0 then -1
    else compareLoop a b c (i + 1) fuel

/-- `compare(a, b, c)` of `1d_grid_1d_block.cu`: scan `i = 0, ...,
VECTOR_LENGTH - 1`, return `-1` at the first index with
`a[i] + b[i] != c[i]`, else `0`. -/
def compare (a b c : List Int) : Int := compareLoop a b c 0 VECTOR_LENGTH

/-- The six heap resources `main` acquires, in acquisition order. -/
inductive Res where
  | host_a
  | host_b
  | host_c
  | device_a
  | device_b
  | device_c
deriving DecidableEq

/-- Outcomes of the external calls `main` makes, in program order: the three
`malloc`s, the three `cudaMalloc`s, the two host→device `cudaMemcpy`s,
whether `cudaGetLastError` reports a fault after the launch, the
device→host `cudaMemcpy` of the result, and the verdict `compare` returns on
the (randomly filled) buffers. -/
structure CudaEnv where
  malloc_a : Bool
  malloc_b : Bool
  malloc_c : Bool
  cudaMalloc_a : Bool
  cudaMalloc_b : Bool
  cudaMalloc_c : Bool
  memcpy_a : Bool
  memcpy_b : Bool
  kernelError : Bool
  memcpy_c : Bool
  compareResult : Int

/-- Observable trace of one run of `main`: which resources were acquired,
which were released (in release order), whether the kernel launch was
reached, whether a launch fault was printed, whether the device→host result
copy was attempted, and the comparator verdict (`none` when `compare` was
never called). -/
structure RunTrace where
  allocated : List Res
  freed : List Res
  kernelLaunched : Bool
  faultReported : Bool
  copyBackAttempted : Bool
  compareVerdict : Option Int
deriving DecidableEq

/-- All six resources in acquisition order — also the exact order in which
every release sequence in `main` frees them
(`free(host_a); free(host_b); free(host_c); cudaFree(device_a); ...`). -/
def allRes : List Res :=
  [.host_a, .host_b, .host_c, .device_a, .device_b, .device_c]

/-- `main` of `1d_grid_1d_block.cu` as a function of the outcomes of its
external calls, returning its exit status and the run trace.  Each failure
branch mirrors the source: print, free exactly the resources acquired so
far (hosts first, then devices, in acquisition order), `return -1`.  A
launch fault is only printed; the result copy-back follows regardless.  The
verdict of `compare` is not used for the status. -/
def mainRun (env : CudaEnv) : Int × RunTrace :=
  if env.malloc_a = false then
    (-1, ⟨[], [], false, false, false, none⟩)
  else if env.malloc_b = false then
    (-1, ⟨[.host_a], [.host_a], false, false, false, none⟩)
  else if env.malloc_c = false then
    (-1, ⟨[.host_a, .host_b], [.host_a, .host_b], false, false, false, none⟩)
  else if env.cudaMalloc_a = false then
    (-1, ⟨[.host_a, .host_b, .host_c], [.host_a, .host_b, .host_c],
      false, false, false, none⟩)
  else if env.cudaMalloc_b = false then
    (-1, ⟨[.host_a, .host_b, .host_c, .device_a],
      [.host_a, .host_b, .host_c, .device_a], false, false, false, none⟩)
  else if env.cudaMalloc_c = false then
    (-1, ⟨[.host_a, .host_b, .host_c, .device_a, .device_b],
      [.host_a, .host_b, .host_c, .device_a, .device_b],
      false, false, false, none⟩)
  else if env.memcpy_a = false then
    (-1, ⟨allRes, allRes, false, false, false, none⟩)
  else if env.memcpy_b = false then
    (-1, ⟨allRes, allRes, false, false, false, none⟩)
  else if env.memcpy_c = false then
    (-1, ⟨allRes, allRes, true, env.kernelError, true, none⟩)
  else
    (0, ⟨allRes, allRes, true, env.kernelError, true, some env.compareResult⟩)

end GPU

namespace ArrayAddition

theorem setRange_zero {α : Type} (j : Nat) (f : Nat → α) (y : List α) :
    setRange j 0 f y = y := rfl

theorem setRange_succ {α : Type} (j n : Nat) (f : Nat → α) (y : List α) :
    setRange j (n + 1) f y = setRange (j + 1) n f (y.set j (f j)) := by
  simp [setRange, List.range'_succ]

theorem setRange_length {α : Type} (j n : Nat) (f : Nat → α) (y : List α) :
    (setRange j n f y).length = y.length := by
  induction n generalizing j y with
  | zero => rfl
  | succ n ih => rw [setRange_succ, ih, List.length_set]

theorem setRange_getElem? {α : Type} (j n : Nat) (f : Nat → α) (y : List α)
    (i : Nat) :
    (setRange j n f y)[i]? =
      if j ≤ i ∧ i < j + n ∧ i < y.length then some (f i) else y[i]? := by
  induction n generalizing j y with
  | zero =>
    have h : ¬(j ≤ i ∧ i < j + 0 ∧ i < y.length) := by omega
    rw [setRange_zero, if_neg h]
  | succ n ih =>
    rw [setRange_succ, ih, List.length_set, List.getElem?_set]
    by_cases h1 : j + 1 ≤ i ∧ i < j + 1 + n ∧ i < y.length
    · rw [if_pos h1, if_pos (by omega)]
    · rw [if_neg h1]
      by_cases h2 : j = i
      · subst h2
        by_cases h3 : j < y.length
        · rw [if_pos rfl, if_pos h3, if_pos (by omega)]
        · rw [if_pos rfl, if_neg h3, if_neg (by omega),
            List.getElem?_eq_none (by omega)]
      · rw [if_neg h2, if_neg (by omega)]

theorem vecLoop_succ {α : Type} (w k : Nat) (f : Nat → α) (y : List α) :
    vecLoop w (k + 1) f y = setRange (w * k) w f (vecLoop w k f y) := by
  simp [vecLoop, List.range_succ]

theorem vecLoop_length {α : Type} (w k : Nat) (f : Nat → α) (y : List α) :
    (vecLoop w k f y).length = y.length := by
  induction k with
  | zero => rfl
  | succ k ih => rw [vecLoop_succ, setRange_length, ih]

theorem vecLoop_getElem? {α : Type} (w k : Nat) (f : Nat → α) (y : List α)
    (i : Nat) :
    (vecLoop w k f y)[i]? =
      if i < w * k ∧ i < y.length then some (f i) else y[i]? := by
  induction k with
  | zero =>
    have h : ¬(i < w * 0 ∧ i < y.length) := by omega
    rw [if_neg h]; rfl
  | succ k ih =>
    rw [vecLoop_succ, setRange_getElem?, vecLoop_length, ih, Nat.mul_succ]
    split_ifs <;> first | rfl | omega

theorem Add_default_getElem? (M : Nat) (x1 x2 y1 : List ℚ) (i : Nat) :
    (Add_default M x1 x2 y1)[i]? =
      if i < M ∧ i < y1.length then some (addAt x1 x2 i) else y1[i]? := by
  rw [Add_default, setRange_getElem?]
  split_ifs <;> first | rfl | omega

/-- C6: for every length `M` and every index `j < M` (within the output
buffer), the scalar strategy `Add_default` stores exactly
`X1[j] + X2[j]` into slot `j`, and it writes nothing at any index
`j ≥ M`, which is left exactly as it was. -/
theorem Add_default_correct (M : Nat) (x1 x2 y1 : List ℚ) (j : Nat) :
    (j < M → j < y1.length →
      (Add_default M x1 x2 y1)[j]? = some (x1.getD j 0 + x2.getD j 0)) ∧
    (M ≤ j → (Add_default M x1 x2 y1)[j]? = y1[j]?) := by
  refine ⟨fun h1 h2 => ?_, fun h1 => ?_⟩
  · rw [Add_default_getElem?, if_pos ⟨h1, h2⟩]; rfl
  · rw [Add_default_getElem?, if_neg (by omega)]

theorem Add_default_correct_witness :
    (Add_default 2 [1, 2] [3, 4] [0, 0])[1]? =
      some (List.getD [1, 2] 1 0 + List.getD [3, 4] 1 0) ∧
    (Add_default 2 [1, 2] [3, 4] [0, 0])[5]? = [(0 : ℚ), 0][5]? :=
  ⟨(Add_default_correct 2 [1, 2] [3, 4] [0, 0] 1).1 (by decide) (by decide),
   (Add_default_correct 2 [1, 2] [3, 4] [0, 0] 5).2 (by decide)⟩

/-- C1: for every length `M` and all inputs, the 4-wide SSE strategy
(`Add_SSE`, modelled from the spec because the source body is a student
stub) produces an output buffer equal to the scalar strategy `Add_default`,
whether or not `M` is a multiple of 4 — the `M / 4` packed steps and the
`M mod 4` scalar tail cover exactly the indices the scalar loop covers. -/
theorem Add_SSE_eq_Add_default (M : Nat) (x1 x2 y1 : List ℚ) :
    Add_SSE M x1 x2 y1 = Add_default M x1 x2 y1 := by
  apply List.ext_getElem?
  intro i
  rw [Add_SSE, Add_default_getElem?, setRange_getElem?, vecLoop_getElem?,
    vecLoop_length]
  split_ifs <;> first | rfl | omega

/-- C2: for every length `M` and all inputs, the 8-wide AVX strategy
(`Add_AVX`, modelled from the spec because the source body is a student
stub) produces an output buffer equal to the scalar strategy `Add_default`,
for every tail case `M mod 8 ∈ {0, ..., 7}` — the `M / 8` packed steps and
the `M mod 8` scalar tail cover exactly the indices the scalar loop covers. -/
theorem Add_AVX_eq_Add_default (M : Nat) (x1 x2 y1 : List ℚ) :
    Add_AVX M x1 x2 y1 = Add_default M x1 x2 y1 := by
  apply List.ext_getElem?
  intro i
  rw [Add_AVX, Add_default_getElem?, setRange_getElem?, vecLoop_getElem?,
    vecLoop_length]
  split_ifs <;> first | rfl | omega

/-- C7: after `initialization_Add`, every index `j < M` holds
`X1[j] = (j mod 7) + 0.11`, `X2[j] = (j mod 13) + 0.1234`, and both output
buffers `Y1` and `test2` hold `0`. -/
theorem initialization_Add_correct (M j : Nat) (hj : j < M) :
    (initialization_Add M).X1[j]? = some (((j % 7 : Nat) : ℚ) + 0.11) ∧
    (initialization_Add M).X2[j]? = some (((j % 13 : Nat) : ℚ) + 0.1234) ∧
    (initialization_Add M).Y1[j]? = some 0 ∧
    (initialization_Add M).test2[j]? = some 0 := by
  refine ⟨?_, ?_, ?_, ?_⟩ <;>
    rw [initialization_Add, setRange_getElem?,
      if_pos ⟨Nat.zero_le _, by omega, by rw [List.length_replicate]; omega⟩]

theorem initialization_Add_correct_witness :
    (initialization_Add 5).X1[3]? = some (((3 % 7 : Nat) : ℚ) + 0.11) ∧
    (initialization_Add 5).X2[3]? = some (((3 % 13 : Nat) : ℚ) + 0.1234) ∧
    (initialization_Add 5).Y1[3]? = some 0 ∧
    (initialization_Add 5).test2[3]? = some 0 :=
  initialization_Add_correct 5 3 (by decide)

end ArrayAddition

namespace GPU

theorem workerStep_length (a b cs : List Int) (i : Nat) :
    (workerStep a b cs i).length = cs.length := by
  rw [workerStep]
  split_ifs <;> simp [List.length_set]

theorem foldl_workerStep_length (a b : List Int) (idxs : List Nat)
    (cs : List Int) :
    (idxs.foldl (workerStep a b) cs).length = cs.length := by
  induction idxs generalizing cs with
  | nil => rfl
  | cons x xs ih => rw [List.foldl_cons, ih, workerStep_length]

theorem foldl_workerStep_getElem? (a b : List Int) (idxs : List Nat)
    (cs : List Int) (i : Nat) :
    (idxs.foldl (workerStep a b) cs)[i]? =
      if i ∈ idxs ∧ i < VECTOR_LENGTH ∧ i < cs.length
      then some (a.getD i 0 + b.getD i 0) else cs[i]? := by
  induction idxs generalizing cs with
  | nil =>
    have h : ¬(i ∈ ([] : List Nat) ∧ i < VECTOR_LENGTH ∧ i < cs.length) := by
      rintro ⟨hm, -⟩
      exact absurd hm (List.not_mem_nil i)
    rw [if_neg h]; rfl
  | cons x xs ih =>
    rw [List.foldl_cons, ih, workerStep_length]
    by_cases hmem : i ∈ xs ∧ i < VECTOR_LENGTH ∧ i < cs.length
    · rw [if_pos hmem, if_pos ⟨List.mem_cons_of_mem x hmem.1, hmem.2⟩]
    · rw [if_neg hmem, workerStep]
      by_cases hx : x < VECTOR_LENGTH
      · rw [if_pos hx, List.getElem?_set]
        by_cases hxi : x = i
        · subst hxi
          by_cases hlen : x < cs.length
          · rw [if_pos rfl, if_pos hlen,
              if_pos ⟨List.mem_cons_self x xs, hx, hlen⟩]
          · rw [if_pos rfl, if_neg hlen, if_neg (fun h => hlen h.2.2),
              List.getElem?_eq_none (by omega)]
        · have hnot : ¬(i ∈ x :: xs ∧ i < VECTOR_LENGTH ∧ i < cs.length) := by
            rintro ⟨hm, h2, h3⟩
            rcases List.mem_cons.mp hm with h | h
            · exact hxi h.symm
            · exact hmem ⟨h, h2, h3⟩
          rw [if_neg hxi, if_neg hnot]
      · have hnot : ¬(i ∈ x :: xs ∧ i < VECTOR_LENGTH ∧ i < cs.length) := by
          rintro ⟨hm, h2, h3⟩
          rcases List.mem_cons.mp hm with h | h
          · exact hx (h ▸ h2)
          · exact hmem ⟨h, h2, h3⟩
        rw [if_neg hx, if_neg hnot]

theorem runKernel_succ (a b cs : List Int) (blocks threads : Nat) :
    runKernel a b cs (blocks + 1) threads =
      (List.range threads).foldl
        (fun acc2 ti => workerStep a b acc2 (ti + blocks * threads))
        (runKernel a b cs blocks threads) := by
  simp [runKernel, List.range_succ]

theorem inner_eq_foldl (a b acc : List Int) (bi threads : Nat) :
    (List.range threads).foldl
      (fun acc2 ti => workerStep a b acc2 (ti + bi * threads)) acc =
    ((List.range threads).map (fun ti => ti + bi * threads)).foldl
      (workerStep a b) acc := by
  rw [List.foldl_map]

theorem runKernel_length (a b cs : List Int) (blocks threads : Nat) :
    (runKernel a b cs blocks threads).length = cs.length := by
  induction blocks with
  | zero => rfl
  | succ k ih =>
    rw [runKernel_succ, inner_eq_foldl, foldl_workerStep_length, ih]

theorem mem_blockIdx_iff (threads bi i : Nat) :
    i ∈ (List.range threads).map (fun ti => ti + bi * threads) ↔
      bi * threads ≤ i ∧ i < bi * threads + threads := by
  simp only [List.mem_map, List.mem_range]
  constructor
  · rintro ⟨ti, hti, rfl⟩
    omega
  · intro h
    exact ⟨i - bi * threads, by omega, by omega⟩

theorem runKernel_getElem? (a b cs : List Int) (blocks threads : Nat)
    (i : Nat) :
    (runKernel a b cs blocks threads)[i]? =
      if i < blocks * threads ∧ i < VECTOR_LENGTH ∧ i < cs.length
      then some (a.getD i 0 + b.getD i 0) else cs[i]? := by
  induction blocks with
  | zero =>
    have h : ¬(i < 0 * threads ∧ i < VECTOR_LENGTH ∧ i < cs.length) := by
      rw [Nat.zero_mul]; omega
    rw [if_neg h]; rfl
  | succ k ih =>
    rw [runKernel_succ, inner_eq_foldl, foldl_workerStep_getElem?,
      runKernel_length, ih, Nat.succ_mul]
    simp only [mem_blockIdx_iff]
    split_ifs <;> first | rfl | omega

/-- C3: in the kernel `addWithThreadsAndBlocks`, a worker with global index
`i` performs the write of `a[i] + b[i]` into the output slot `i` exactly
when `i < VECTOR_LENGTH` and
performs no write at all when `i ≥ VECTOR_LENGTH`; consequently, after the
kernel runs over the grid `main` computes (`number_of_blocks` blocks of
`MAX_NUMBER_OF_THREADS` threads), slot `i` holds `a[i] + b[i]` for every
`i < VECTOR_LENGTH` and every slot with `i ≥ VECTOR_LENGTH` is untouched. -/
theorem addWithThreadsAndBlocks_correct (a b cs : List Int) (i : Nat) :
    (i < VECTOR_LENGTH →
      workerStep a b cs i = cs.set i (a.getD i 0 + b.getD i 0)) ∧
    (VECTOR_LENGTH ≤ i → workerStep a b cs i = cs) ∧
    (i < VECTOR_LENGTH → i < cs.length →
      (runKernel a b cs number_of_blocks MAX_NUMBER_OF_THREADS)[i]? =
        some (a.getD i 0 + b.getD i 0)) ∧
    (VECTOR_LENGTH ≤ i →
      (runKernel a b cs number_of_blocks MAX_NUMBER_OF_THREADS)[i]? =
        cs[i]?) := by
  have hgrid : VECTOR_LENGTH ≤ number_of_blocks * MAX_NUMBER_OF_THREADS := by
    decide
  refine ⟨fun h => ?_, fun h => ?_, fun h1 h2 => ?_, fun h => ?_⟩
  · rw [workerStep, if_pos h]
  · rw [workerStep, if_neg (by omega)]
  · rw [runKernel_getElem?, if_pos ⟨by omega, h1, h2⟩]
  · rw [runKernel_getElem?, if_neg (by rintro ⟨-, h2, -⟩; omega)]

theorem addWithThreadsAndBlocks_correct_witness :
    workerStep [5] [7] [0] 1000000 = [(0 : Int)] ∧
    (runKernel [5] [7] [0] number_of_blocks MAX_NUMBER_OF_THREADS)[0]? =
      some (List.getD [(5 : Int)] 0 0 + List.getD [(7 : Int)] 0 0) :=
  ⟨(addWithThreadsAndBlocks_correct [5] [7] [0] 1000000).2.1 (by decide),
   (addWithThreadsAndBlocks_correct [5] [7] [0] 0).2.2.1 (by decide)
     (by decide)⟩

/-- C4: for any length `L ≥ 0` and any threads-per-block `T > 0`, the block
count `(L + T - 1) / T` computed by `main`'s integer ceiling division (over
C `int` arithmetic) satisfies `blocks * T ≥ L` and `(blocks - 1) * T < L`. -/
theorem numberOfBlocks_spec (L T : Int) (hL : 0 ≤ L) (hT : 0 < T) :
    L ≤ numberOfBlocks L T * T ∧ (numberOfBlocks L T - 1) * T < L := by
  have htd : numberOfBlocks L T = (L + T - 1) / T := by
    rw [numberOfBlocks, Int.tdiv_eq_ediv (by omega) (by omega)]
  have h1 := Int.ediv_add_emod (L + T - 1) T
  have h2 := Int.emod_nonneg (L + T - 1) (by omega : T ≠ 0)
  have h3 := Int.emod_lt_of_pos (L + T - 1) hT
  rw [htd]
  constructor
  · linarith
  · have hx : ((L + T - 1) / T - 1) * T = (L + T - 1) / T * T - T := by ring
    rw [hx]
    linarith

theorem numberOfBlocks_spec_witness :
    (1000000 : Int) ≤ numberOfBlocks 1000000 1024 * 1024 ∧
    (numberOfBlocks 1000000 1024 - 1) * 1024 < 1000000 :=
  numberOfBlocks_spec 1000000 1024 (by decide) (by decide)

end GPU

namespace GPU

theorem compareLoop_zero_iff (a b cs : List Int) :
    ∀ (n i : Nat), compareLoop a b cs i n = 0 ↔
      ∀ j, i ≤ j → j < i + n → a.getD j 0 + b.getD j 0 = cs.getD j 0 := by
  intro n
  induction n with
  | zero =>
    intro i
    constructor
    · intro _ j h1 h2
      omega
    · intro _
      rfl
  | succ n ih =>
    intro i
    by_cases h : a.getD i 0 + b.getD i 0 ≠ cs.getD i 0
    · constructor
      · intro h0
        exfalso
        simp only [compareLoop, if_pos h] at h0
        omega
      · intro hall
        exact absurd (hall i (Nat.le_refl i) (by omega)) h
    · push_neg at h
      have heq : compareLoop a b cs i (n + 1) = compareLoop a b cs (i + 1) n := by
        simp only [compareLoop]
        rw [if_neg (not_not_intro h)]
      rw [heq, ih (i + 1)]
      constructor
      · intro hall j h1 h2
        rcases Nat.eq_or_lt_of_le h1 with rfl | hlt
        · exact h
        · exact hall j hlt (by omega)
      · intro hall j h1 h2
        exact hall j (by omega) (by omega)

theorem compareLoop_stop (a b cs a' b' c' : List Int) :
    ∀ (n i i₀ : Nat), i ≤ i₀ → i₀ < i + n →
      (∀ j, i ≤ j → j < i₀ → a.getD j 0 + b.getD j 0 = cs.getD j 0) →
      a.getD i₀ 0 + b.getD i₀ 0 ≠ cs.getD i₀ 0 →
      (∀ j, i ≤ j → j ≤ i₀ →
        a'.getD j 0 = a.getD j 0 ∧ b'.getD j 0 = b.getD j 0 ∧
          c'.getD j 0 = cs.getD j 0) →
      compareLoop a' b' c' i n = -1 := by
  intro n
  induction n with
  | zero =>
    intro i i₀ h1 h2 _ _ _
    omega
  | succ n ih =>
    intro i i₀ h1 h2 hmin hmis hagree
    obtain ⟨ha, hb, hc⟩ := hagree i (Nat.le_refl i) h1
    by_cases hi : i = i₀
    · subst hi
      have hne : a'.getD i 0 + b'.getD i 0 ≠ c'.getD i 0 := by
        rw [ha, hb, hc]
        exact hmis
      simp only [compareLoop]
      rw [if_pos hne]
    · have hlt : i < i₀ := by omega
      have heqi : a'.getD i 0 + b'.getD i 0 = c'.getD i 0 := by
        rw [ha, hb, hc]
        exact hmin i (Nat.le_refl i) hlt
      simp only [compareLoop]
      rw [if_neg (not_not_intro heqi)]
      exact ih (i + 1) i₀ (by omega) (by omega)
        (fun j hj1 hj2 => hmin j (by omega) hj2) hmis
        (fun j hj1 hj2 => hagree j (by omega) hj2)

/-- C9: the integer comparator `compare(a, b, cs)` uses exact integer
equality per index — it returns 0 if and only if `a[i] + b[i] = cs[i]` for
every `i < VECTOR_LENGTH`, and when `i₀` is the smallest index with a
mismatch it returns -1, examining no index beyond `i₀`: any buffers that
agree with `a`, `b`, `cs` up to index `i₀` produce the same -1 verdict
whatever they hold afterwards. -/
theorem compare_spec :
    (∀ a b cs : List Int, compare a b cs = 0 ↔
      ∀ i, i < VECTOR_LENGTH → a.getD i 0 + b.getD i 0 = cs.getD i 0) ∧
    (∀ (a b cs : List Int) (i₀ : Nat), i₀ < VECTOR_LENGTH →
      (∀ j, j < i₀ → a.getD j 0 + b.getD j 0 = cs.getD j 0) →
      a.getD i₀ 0 + b.getD i₀ 0 ≠ cs.getD i₀ 0 →
      compare a b cs = -1 ∧
      ∀ a' b' c' : List Int,
        (∀ j, j ≤ i₀ →
          a'.getD j 0 = a.getD j 0 ∧ b'.getD j 0 = b.getD j 0 ∧
            c'.getD j 0 = cs.getD j 0) →
        compare a' b' c' = -1) := by
  constructor
  · intro a b cs
    rw [compare, compareLoop_zero_iff]
    constructor
    · intro hall i hi
      exact hall i (Nat.zero_le i) (by omega)
    · intro hall j _ hj
      exact hall j (by omega)
  · intro a b cs i₀ h0 hmin hmis
    constructor
    · rw [compare]
      exact compareLoop_stop a b cs a b cs VECTOR_LENGTH 0 i₀ (Nat.zero_le i₀)
        (by omega) (fun j _ hj => hmin j hj) hmis
        (fun j _ _ => ⟨rfl, rfl, rfl⟩)
    · intro a' b' c' hagree
      rw [compare]
      exact compareLoop_stop a b cs a' b' c' VECTOR_LENGTH 0 i₀
        (Nat.zero_le i₀) (by omega) (fun j _ hj => hmin j hj) hmis
        (fun j _ hj => hagree j hj)

theorem compare_spec_witness : compare [1] [2] [0] = -1 :=
  (compare_spec.2 [1] [2] [0] 0 (by decide)
    (fun j hj => absurd hj (Nat.not_lt_zero j)) (by decide)).1

/-- C5: if the allocation of the second device buffer fails (after both host
input buffers, the host output buffer and the first device buffer were
obtained), `main` releases exactly `host_a`, `host_b`, `host_c` and
`device_a`, returns the fatal status -1, and never launches the kernel; in
general, on every run that returns -1 the released resources are exactly the
successfully acquired ones, in order. -/
theorem mainRun_cleanup :
    (∀ env : CudaEnv, env.malloc_a = true → env.malloc_b = true →
      env.malloc_c = true → env.cudaMalloc_a = true →
      env.cudaMalloc_b = false →
      mainRun env =
        (-1, ⟨[.host_a, .host_b, .host_c, .device_a],
          [.host_a, .host_b, .host_c, .device_a],
          false, false, false, none⟩)) ∧
    (∀ env : CudaEnv, (mainRun env).1 = -1 →
      (mainRun env).2.freed = (mainRun env).2.allocated) := by
  constructor
  · intro env h1 h2 h3 h4 h5
    simp [mainRun, h1, h2, h3, h4, h5]
  · intro env _
    rw [mainRun]
    split_ifs <;> rfl

theorem mainRun_cleanup_witness :
    mainRun ⟨true, true, true, true, false, true, true, true, false, true, 0⟩ =
      (-1, ⟨[.host_a, .host_b, .host_c, .device_a],
        [.host_a, .host_b, .host_c, .device_a], false, false, false, none⟩) ∧
    (mainRun ⟨false, true, true, true, true, true, true, true, false, true,
      0⟩).2.freed =
      (mainRun ⟨false, true, true, true, true, true, true, true, false, true,
        0⟩).2.allocated :=
  ⟨mainRun_cleanup.1
      ⟨true, true, true, true, false, true, true, true, false, true, 0⟩
      rfl rfl rfl rfl rfl,
   mainRun_cleanup.2
      ⟨false, true, true, true, true, true, true, true, false, true, 0⟩ rfl⟩

/-- C8: when every step up to the kernel launch succeeds, a kernel fault
reported by `cudaGetLastError` is surfaced as a diagnostic
(`faultReported` mirrors it) but the run does not abort: the device→host
copy of the result buffer is still attempted, and the exit status depends
only on that copy, not on the fault. -/
theorem mainRun_kernel_fault_soft (env : CudaEnv)
    (h1 : env.malloc_a = true) (h2 : env.malloc_b = true)
    (h3 : env.malloc_c = true) (h4 : env.cudaMalloc_a = true)
    (h5 : env.cudaMalloc_b = true) (h6 : env.cudaMalloc_c = true)
    (h7 : env.memcpy_a = true) (h8 : env.memcpy_b = true) :
    (mainRun env).2.faultReported = env.kernelError ∧
    (mainRun env).2.copyBackAttempted = true ∧
    (mainRun env).1 = if env.memcpy_c = true then 0 else -1 := by
  cases hc : env.memcpy_c <;>
    simp [mainRun, h1, h2, h3, h4, h5, h6, h7, h8, hc]

theorem mainRun_kernel_fault_soft_witness :
    (mainRun ⟨true, true, true, true, true, true, true, true, true, true,
      0⟩).2.faultReported =
      (⟨true, true, true, true, true, true, true, true, true, true,
        0⟩ : CudaEnv).kernelError ∧
    (mainRun ⟨true, true, true, true, true, true, true, true, true, true,
      0⟩).2.copyBackAttempted = true ∧
    (mainRun ⟨true, true, true, true, true, true, true, true, true, true,
      0⟩).1 =
      if (⟨true, true, true, true, true, true, true, true, true, true,
        0⟩ : CudaEnv).memcpy_c = true then 0 else -1 :=
  mainRun_kernel_fault_soft
    ⟨true, true, true, true, true, true, true, true, true, true, 0⟩
    rfl rfl rfl rfl rfl rfl rfl rfl

/-- C10: the exit status of `main` does not reflect the comparator's
verdict — whenever every host allocation, device allocation and host/device
transfer succeeds, `main` returns 0, for any value `compare` returns
(its result is discarded at the call site). -/
theorem mainRun_discards_compare (env : CudaEnv)
    (h1 : env.malloc_a = true) (h2 : env.malloc_b = true)
    (h3 : env.malloc_c = true) (h4 : env.cudaMalloc_a = true)
    (h5 : env.cudaMalloc_b = true) (h6 : env.cudaMalloc_c = true)
    (h7 : env.memcpy_a = true) (h8 : env.memcpy_b = true)
    (h9 : env.memcpy_c = true) :
    (mainRun env).1 = 0 ∧
    (mainRun env).2.compareVerdict = some env.compareResult := by
  simp [mainRun, h1, h2, h3, h4, h5, h6, h7, h8, h9]

theorem mainRun_discards_compare_witness :
    (mainRun ⟨true, true, true, true, true, true, true, true, false, true,
      -1⟩).1 = 0 ∧
    (mainRun ⟨true, true, true, true, true, true, true, true, false, true,
      -1⟩).2.compareVerdict =
      some (⟨true, true, true, true, true, true, true, true, false, true,
        -1⟩ : CudaEnv).compareResult :=
  mainRun_discards_compare
    ⟨true, true, true, true, true, true, true, true, false, true, -1⟩
    rfl rfl rfl rfl rfl rfl rfl rfl rfl

end GPU
